import Mathlib

/-!
# Verification of the SVG diagram layout-and-routing engine

Shallow embedding of `src/lib/SVGDiagramGenerator.js` (class `SVGDiagramGenerator`)
and the geometric helpers of `DiagramMath`.  JavaScript numbers are modelled as
exact rationals (`ℚ`); square-root based comparisons from the source are expressed
by the equivalent squared comparisons over `ℚ`, and bridge lemmas relate them to
the real-valued formulas (`Real.sqrt`) where a claim's wording demands it.
-/

namespace DiagramGen

/-- Recognized numeric/boolean options of the generator
(constructor of `SVGDiagramGenerator`, lines 9-39). -/
structure Options where
  minTableWidth : ℚ
  maxTableWidth : ℚ
  tableHeaderHeight : ℚ
  columnHeight : ℚ
  tablePadding : ℚ
  canvasMargin : ℚ
  connectionMargin : ℚ
  collisionBuffer : ℚ
  visualBuffer : ℚ
  safeZoneOffset : ℚ
  routingSpacingTop : ℚ
  routingSpacingSide : ℚ
  fontSize : ℚ
  headerFontSize : ℚ
  maxColumns : ℕ
  showDataTypes : Bool
  showConstraints : Bool
  textPadding : ℚ
  deriving DecidableEq, Repr

/-- The default option values from the source constructor. -/
def defaultOptions : Options where
  minTableWidth := 200
  maxTableWidth := 400
  tableHeaderHeight := 35
  columnHeight := 22
  tablePadding := 60
  canvasMargin := 100
  connectionMargin := 25
  collisionBuffer := 25
  visualBuffer := 50
  safeZoneOffset := 40
  routingSpacingTop := 60
  routingSpacingSide := 40
  fontSize := 12
  headerFontSize := 14
  maxColumns := 15
  showDataTypes := true
  showConstraints := true
  textPadding := 24

/-- A 2D point, canvas pixel coordinates. -/
structure Point where
  x : ℚ
  y : ℚ
  deriving DecidableEq, Repr

instance : Inhabited Point := ⟨⟨0, 0⟩⟩

/-- The rectangle record produced by `getTableRect` (lines 991-1000):
position, size and the derived `right`/`bottom`/`centerX`/`centerY` fields. -/
structure Rect where
  x : ℚ
  y : ℚ
  width : ℚ
  height : ℚ
  right : ℚ
  bottom : ℚ
  centerX : ℚ
  centerY : ℚ
  deriving DecidableEq, Repr

/-- Build the rect record exactly as `getTableRect` does. -/
def mkRect (x y w h : ℚ) : Rect :=
  ⟨x, y, w, h, x + w, y + h, x + w / 2, y + h / 2⟩

/-- A column of a table: name, dialect type text, nullability. -/
structure Column where
  name : String
  type : String
  allowNull : Bool
  deriving DecidableEq, Repr

/-- A foreign-key descriptor of a table. -/
structure ForeignKey where
  column : String
  referencedTable : String
  referencedColumn : String
  deriving DecidableEq, Repr

/-- A table of the schema graph.  `displayName`/`fullName` are optional
(duck-typed in the source; absent properties are modelled as `none`). -/
structure Table where
  name : String
  displayName : Option String
  fullName : Option String
  columns : List Column
  primaryKeys : List String
  foreignKeys : List ForeignKey
  deriving DecidableEq, Repr

instance : Inhabited Table := ⟨⟨"", none, none, [], [], []⟩⟩

/-- A relationship record: endpoints referenced by name. -/
structure Relationship where
  fromTable : String
  fromColumn : String
  toTable : String
  toColumn : String
  constraintName : String
  deriving DecidableEq, Repr

/-- Source `DiagramMath.estimateTextWidth` (part_001):
`text.length * (fontSize * 0.6)`. -/
def estimateTextWidth (text : String) (fontSize : ℚ) : ℚ :=
  (text.length : ℚ) * (fontSize * (6 / 10))

/-- Squared Euclidean distance between two points. `DiagramMath.distance`
is `Real.sqrt` of this; comparisons in the source are modelled through the
squares, which is exact because all compared quantities are nonnegative. -/
def distSq (p q : Point) : ℚ :=
  (q.x - p.x) ^ 2 + (q.y - p.y) ^ 2

/-! ## Table sizing (`calculateTableWidths`, lines 85-129, and `getTableHeight`, lines 340-344) -/

/-- Truncate `s` from the first literal occurrence of `pat` onwards, keeping the
pattern itself: the effect of the source's case-sensitive
`.replace(/PAT.*/, 'PAT')` rewrites for `TIMESTAMP` and `DATETIME`. -/
def truncFrom (pat s : String) : String :=
  match s.splitOn pat with
  | [] => s
  | [_] => s
  | h :: _ => h ++ pat

/-- Source `simplifyDataType` (lines 439-448).  The case-insensitive
`VARCHAR(d)`/`DECIMAL(d,d)` rewrites only canonicalize letter case, which the
subsequent `toUpperCase()` makes a no-op, so they are not repeated here; the
case-sensitive `TIMESTAMP.*`/`DATETIME.*` truncations and the final
`toUpperCase().substring(0, 15)` are modelled exactly. -/
def simplifyDataType (t : String) : String :=
  ((truncFrom "DATETIME" (truncFrom "TIMESTAMP" t)).toUpper).take 15

/-- Whether `column` is rendered as a primary key of `table`
(`table.primaryKeys && table.primaryKeys.includes(column.name)`). -/
def isPKCol (t : Table) (c : Column) : Bool :=
  t.primaryKeys.contains c.name

/-- Whether `column` is rendered as a foreign key of `table`. -/
def isFKCol (t : Table) (c : Column) : Bool :=
  t.foreignKeys.any (fun fk => fk.column == c.name)

/-- The full rendered text of one column line:
prefix glyph + name + optional type + optional NOT NULL (lines 100-109). -/
def columnText (o : Options) (t : Table) (c : Column) : String :=
  let prefixGlyph : String := if isPKCol t c then "🔑 " else if isFKCol t c then "🔗 " else ""
  let displayType : String := if o.showDataTypes then " : " ++ simplifyDataType c.type else ""
  let nullability : String := if o.showConstraints && !c.allowNull then " NOT NULL" else ""
  prefixGlyph ++ c.name ++ displayType ++ nullability

/-- The display name used for the title (`displayName || fullName || name`). -/
def tableDisplayName (t : Table) : String :=
  (t.displayName.getD (t.fullName.getD t.name))

/-- The pre-clamp width of one table: the running `maxWidth` right before the
`Math.min`/`Math.max` clamping in `calculateTableWidths` (lines 87-121):
the max of the minimum floor, the title width, every visible column line width,
and (for truncated tables) the "... and N more columns" line width. -/
def preClampWidth (o : Options) (t : Table) : ℚ :=
  let w0 := max o.minTableWidth
      (estimateTextWidth (tableDisplayName t) o.headerFontSize + o.textPadding)
  let visible := t.columns.take o.maxColumns
  let w1 := visible.foldl
      (fun acc c => max acc (estimateTextWidth (columnText o t c) o.fontSize + o.textPadding)) w0
  if o.maxColumns < t.columns.length then
    let remaining := t.columns.length - o.maxColumns
    let moreText := "... and " ++ toString remaining ++ " more columns"
    max w1 (estimateTextWidth moreText o.fontSize + o.textPadding)
  else w1

/-- The stored width of one table: pre-clamp width clamped by
`Math.min(·, maxTableWidth)` then `Math.max(·, minTableWidth)`,
then `Math.ceil` (lines 123-127). -/
def tableWidthCalc (o : Options) (t : Table) : ℚ :=
  ((⌈max (min (preClampWidth o t) o.maxTableWidth) o.minTableWidth⌉ : ℤ) : ℚ)

/-- Source `calculateTableWidths`: the per-name width map, modelled as an association
list in input order (the source fills a `Map` keyed by `table.name`). -/
def calculateTableWidths (tables : List Table) (o : Options) : List (String × ℚ) :=
  tables.map (fun t => (t.name, tableWidthCalc o t))

/-- Source `getTableHeight` (lines 340-344):
`tableHeaderHeight + min(columns, maxColumns) * columnHeight
 + (columnHeight if truncated) + 15`. -/
def getTableHeight (o : Options) (t : Table) : ℚ :=
  o.tableHeaderHeight + (min t.columns.length o.maxColumns : ℕ) * o.columnHeight +
    (if o.maxColumns < t.columns.length then o.columnHeight else 0) + 15

/-! ## Grid layout placer (`calculatePositions`, lines 288-319) -/

/-- There is always some `k` with `5*k*k ≥ 6*n` (e.g. `k = n+1`). -/
theorem colsCount_exists (n : ℕ) : ∃ k, 6 * n ≤ 5 * (k * k) :=
  ⟨n + 1, by nlinarith⟩

/-- The number of columns of the grid: `Math.ceil(Math.sqrt(tables.length * 1.2))`
(line 290).  `1.2 = 6/5`, and for naturals `k`, `k ≥ √(6n/5) ↔ 5k² ≥ 6n`, so the
ceiling is the least such `k`; the equality with the real-valued formula is
proved in `colsCount_eq_ceil_sqrt`. -/
def colsCount (n : ℕ) : ℕ :=
  Nat.find (colsCount_exists n)

/-- The x coordinate where each row starts (line 291). -/
def startX (o : Options) : ℚ := o.tablePadding + o.canvasMargin

/-- The y coordinate of the first row: extra 80 units of space for the title
(line 292). -/
def startY (o : Options) : ℚ := o.tablePadding + o.canvasMargin + 80

/-- The mutable loop state of `calculatePositions`:
current `x`, `y`, `currentCol` and `maxHeightInRow`.
(`maxWidthInRow` is also tracked by the source but never read before being
reset, so it does not influence any position and is omitted.) -/
structure LayoutSt where
  x : ℚ
  y : ℚ
  col : ℕ
  maxH : ℚ
  deriving DecidableEq, Repr

/-- One iteration of the `calculatePositions` loop body (lines 297-318), for a
table of height `h` and width `w`: update `maxHeightInRow`, then either wrap to
a new row (`currentCol+1 ≥ cols`) or advance within the row. -/
def layoutStep (o : Options) (c : ℕ) (h w : ℚ) (s : LayoutSt) : LayoutSt :=
  let maxH := max s.maxH h
  if c ≤ s.col + 1 then
    ⟨startX o, s.y + maxH + o.tablePadding, 0, 0⟩
  else
    ⟨s.x + w + o.tablePadding, s.y, s.col + 1, maxH⟩

/-- The loop state before placing the `i`-th table: `hs`/`ws` give the height
and width of each table by input index, `c` the column count. -/
def layoutState (o : Options) (hs ws : ℕ → ℚ) (c : ℕ) : ℕ → LayoutSt
  | 0 => ⟨startX o, startY o, 0, 0⟩
  | i + 1 => layoutStep o c (hs i) (ws i) (layoutState o hs ws c i)

/-- Width lookup used during layout: `getTableWidth` (lines 132-134) reads the
width map, defaulting to `minTableWidth`. -/
def lookupWidth (widths : List (String × ℚ)) (o : Options) (t : Table) : ℚ :=
  (widths.lookup t.name).getD o.minTableWidth

/-- The position assigned to the `i`-th table. -/
def posOfIndex (o : Options) (tables : List Table) (widths : List (String × ℚ))
    (i : ℕ) : Point :=
  let hs := fun j => getTableHeight o (tables.getD j default)
  let ws := fun j => lookupWidth widths o (tables.getD j default)
  let s := layoutState o hs ws (colsCount tables.length) i
  ⟨s.x, s.y⟩

/-- Source `calculatePositions`: the per-name position map, in input order
(the source fills `this.tablePositions`, a `Map` keyed by `table.name`). -/
def calculatePositions (tables : List Table) (widths : List (String × ℚ))
    (o : Options) : List (String × Point) :=
  (List.range tables.length).map
    (fun i => ((tables.getD i default).name, posOfIndex o tables widths i))

/-! ## Generator state -/

/-- The generator state read by the routing and drawing methods:
the input tables, the width map (`this.tableWidths`), the position map
(`this.tablePositions`) and the options. -/
structure Env where
  tables : List Table
  widths : List (String × ℚ)
  positions : List (String × Point)
  opts : Options
  deriving Repr

/-- Source `getTableWidth` (lines 132-134). -/
def getTableWidth (e : Env) (t : Table) : ℚ :=
  lookupWidth e.widths e.opts t

/-- Source `getTableRect` (lines 984-1001): `none` when the table has no position. -/
def getTableRect (e : Env) (t : Table) : Option Rect :=
  (e.positions.lookup t.name).map
    (fun p => mkRect p.x p.y (getTableWidth e t) (getTableHeight e.opts t))

/-- Source `getColumnYPosition` (lines 1069-1088): header height + index among the
visible columns × row height + half row height + 9; rectangle center when the
named column is not visible; 0 when the table has no rectangle. -/
def getColumnYPosition (e : Env) (t : Table) (columnName : String) : ℚ :=
  match getTableRect e t with
  | none => 0
  | some rect =>
    let visible := t.columns.take e.opts.maxColumns
    match visible.findIdx? (fun col => col.name == columnName) with
    | none => rect.centerY
    | some idx =>
      rect.y + e.opts.tableHeaderHeight + (idx : ℚ) * e.opts.columnHeight +
        e.opts.columnHeight / 2 + 9

/-- Source `calculateCanvasBounds` (lines 321-338): max over the position map of
position + size, `800×600` fallback when the maxima are zero, plus the canvas
margin on width and height.  (The source would fail on a position entry whose
name matches no table; such entries are skipped here.) -/
def calculateCanvasBounds (e : Env) : ℚ × ℚ :=
  let mm := e.positions.foldl
    (fun (acc : ℚ × ℚ) entry =>
      match e.tables.find? (fun t => t.name == entry.1) with
      | none => acc
      | some t =>
        (max acc.1 (entry.2.x + getTableWidth e t),
         max acc.2 (entry.2.y + getTableHeight e.opts t)))
    (0, 0)
  ((if mm.1 = 0 then 800 else mm.1) + e.opts.canvasMargin,
   (if mm.2 = 0 then 600 else mm.2) + e.opts.canvasMargin)

/-! ## Geometry primitives (lines 658-706) -/

/-- The strict counter-clockwise test inside `linesIntersectSimple` (line 703). -/
def ccwB (a b c : Point) : Bool :=
  decide ((c.y - a.y) * (b.x - a.x) > (b.y - a.y) * (c.x - a.x))

/-- Source `linesIntersectSimple` (lines 702-706). -/
def linesIntersectSimple (p1 q1 p2 q2 : Point) : Bool :=
  (ccwB p1 p2 q2 != ccwB q1 p2 q2) && (ccwB p1 q1 p2 != ccwB p1 q1 q2)

/-- An axis-aligned box given by its left/top and right/bottom coordinates,
as in the expanded-rectangle literals of the source. -/
structure Box where
  x : ℚ
  y : ℚ
  right : ℚ
  bottom : ℚ
  deriving DecidableEq, Repr

/-- Source `lineIntersectsBox` (lines 675-699): same-side rejection, endpoint-inside
test, then crossing of any of the four edges. -/
def lineIntersectsBox (s e : Point) (box : Box) : Bool :=
  if (s.x < box.x && e.x < box.x) || (s.x > box.right && e.x > box.right) ||
     (s.y < box.y && e.y < box.y) || (s.y > box.bottom && e.y > box.bottom) then
    false
  else if (box.x ≤ s.x && s.x ≤ box.right && box.y ≤ s.y && s.y ≤ box.bottom) ||
          (box.x ≤ e.x && e.x ≤ box.right && box.y ≤ e.y && e.y ≤ box.bottom) then
    true
  else
    linesIntersectSimple s e ⟨box.x, box.y⟩ ⟨box.right, box.y⟩ ||
    linesIntersectSimple s e ⟨box.right, box.y⟩ ⟨box.right, box.bottom⟩ ||
    linesIntersectSimple s e ⟨box.right, box.bottom⟩ ⟨box.x, box.bottom⟩ ||
    linesIntersectSimple s e ⟨box.x, box.bottom⟩ ⟨box.x, box.y⟩

/-- Source `lineIntersectsRectSimple` (lines 658-672): test against the rectangle
expanded on all sides by `collisionBuffer + visualBuffer`. -/
def lineIntersectsRectSimple (o : Options) (s e : Point) (rect : Rect) : Bool :=
  let totalBuffer := o.collisionBuffer + o.visualBuffer
  lineIntersectsBox s e
    ⟨rect.x - totalBuffer, rect.y - totalBuffer,
     rect.right + totalBuffer, rect.bottom + totalBuffer⟩

/-! ## Connection point resolver (`findBestConnectionPoints`, lines 1004-1066) -/

/-- One of the four sides of a table rectangle. -/
inductive Side where
  | right
  | left
  | top
  | bottom
  deriving DecidableEq, Repr

/-- The candidate anchor point on a given side, offset outward from the edge by
the connection margin, at the column's y position for left/right sides
(lines 1013-1025). -/
def anchorPoint (m : ℚ) (r : Rect) (colY : ℚ) : Side → Point
  | .right => ⟨r.right + m, colY⟩
  | .left => ⟨r.x - m, colY⟩
  | .top => ⟨r.centerX, r.y - m⟩
  | .bottom => ⟨r.centerX, r.bottom + m⟩

/-- The connection point on the table edge itself, without the margin
(lines 1051-1052); note the y coordinate is the column y even for top/bottom. -/
def edgePoint (r : Rect) (colY : ℚ) : Side → Point
  | .right => ⟨r.right, colY⟩
  | .left => ⟨r.x, colY⟩
  | .top => ⟨r.centerX, colY⟩
  | .bottom => ⟨r.centerX, colY⟩

/-- The side-pair weight multiplying the anchor distance (lines 1036-1041):
0.6 for an opposing left/right pair, 0.8 if any side is left or right,
1.0 otherwise. -/
def sideWeight (f t : Side) : ℚ :=
  if (f = .right ∧ t = .left) ∨ (f = .left ∧ t = .right) then 6 / 10
  else if f = .left ∨ f = .right ∨ t = .left ∨ t = .right then 8 / 10
  else 1

/-- The connection record returned by `findBestConnectionPoints`
(lines 1044-1053): routing start/end anchors, the chosen sides, and the
on-edge marker points. -/
structure Conn where
  start : Point
  endP : Point
  fromSide : Side
  toSide : Side
  tableStart : Point
  tableEnd : Point
  deriving DecidableEq, Repr

/-- The squared weighted score of a candidate: `(weight * distance)²`.
The source compares `weight * distance` with `distance = √distSq`; both sides
are nonnegative, so comparing squares is equivalent
(lemma `connScore_le_iff`). -/
def connScoreSq (c : Conn) : ℚ :=
  sideWeight c.fromSide c.toSide ^ 2 * distSq c.start c.endP

/-- The candidate connection for one pair of sides. -/
def mkCand (m : ℚ) (fr tr : Rect) (fy ty : ℚ) (fs ts : Side) : Conn :=
  ⟨anchorPoint m fr fy fs, anchorPoint m tr ty ts, fs, ts,
   edgePoint fr fy fs, edgePoint tr ty ts⟩

/-- The iteration order of `Object.entries(fromPoints)` / `toPoints`:
insertion order of the object literals, i.e. right, left, top, bottom
(lines 1013-1025). -/
def sideOrder : List Side := [.right, .left, .top, .bottom]

/-- All 16 candidate side combinations, in the double-loop order of
lines 1031-1032 (fromSide outer, toSide inner, each in `sideOrder`). -/
def candList (m : ℚ) (fr tr : Rect) (fy ty : ℚ) : List Conn :=
  sideOrder.flatMap (fun fs => sideOrder.map (fun ts => mkCand m fr tr fy ty fs ts))

/-- The argmin loop of lines 1028-1056: starting from a current best, walk the
remaining candidates and replace the best exactly on a strict improvement
(`weight < bestDistance`), so the first minimum wins. -/
def selectAux (best : Conn) : List Conn → Conn
  | [] => best
  | c :: rest =>
    if connScoreSq c < connScoreSq best then selectAux c rest else selectAux best rest

/-- The candidate list of one `findBestConnectionPoints` call: the column y
positions are resolved by `getColumnYPosition` from the tables' own rectangles
(lines 1006-1007). -/
def connCands (e : Env) (fr tr : Rect) (fromColumn toColumn : String)
    (fromT toT : Table) : List Conn :=
  candList e.opts.connectionMargin fr tr
    (getColumnYPosition e fromT fromColumn) (getColumnYPosition e toT toColumn)

/-- Source `findBestConnectionPoints` (lines 1004-1066).  The loop starts with
`bestDistance = Infinity`, so the first candidate always becomes the initial
best; the trailing `||` fallback object (lines 1058-1065) is unreachable and is
kept only for the impossible empty-candidate case. -/
def findBestConnectionPoints (e : Env) (fr tr : Rect) (fromColumn toColumn : String)
    (fromT toT : Table) : Conn :=
  let fy := getColumnYPosition e fromT fromColumn
  let ty := getColumnYPosition e toT toColumn
  let m := e.opts.connectionMargin
  match connCands e fr tr fromColumn toColumn fromT toT with
  | [] =>
    ⟨⟨fr.right + m, fy⟩, ⟨tr.x - m, ty⟩, .right, .left, ⟨fr.right, fy⟩, ⟨tr.x, ty⟩⟩
  | c :: rest => selectAux c rest

/-- The mirrored connection: start/end, sides, and edge markers exchanged. -/
def mirrorConn (c : Conn) : Conn :=
  ⟨c.endP, c.start, c.toSide, c.fromSide, c.tableEnd, c.tableStart⟩

/-! ## Router (`createSimpleRoute` etc., lines 589-751 and 968-981) -/

/-- The consecutive segments of a waypoint list. -/
def segmentsOf (l : List Point) : List (Point × Point) :=
  l.zip l.tail

/-- Source `isRouteClear` (lines 634-655): obstacles are all tables other than
the two endpoint tables that have a rectangle; a route is clear when no segment
intersects any obstacle under `lineIntersectsRectSimple`. -/
def isRouteClear (e : Env) (waypoints : List Point) (fromT toT : Table) : Bool :=
  let obstacles := (e.tables.filter (fun t => ¬(t = fromT) ∧ ¬(t = toT))).filterMap
    (getTableRect e)
  (segmentsOf waypoints).all (fun seg =>
    obstacles.all (fun ob => !(lineIntersectsRectSimple e.opts seg.1 seg.2 ob)))

/-- Source `createMarginRoute` (lines 709-751): a detour through the margin band
`canvasMargin - safeZoneOffset`, choosing the corridor from the quadrants of the
two endpoints relative to the canvas center. -/
def createMarginRoute (e : Env) (s en : Point) : List Point :=
  let bounds := calculateCanvasBounds e
  let safeZone := e.opts.canvasMargin - e.opts.safeZoneOffset
  let startLeft := s.x < bounds.1 / 2
  let endLeft := en.x < bounds.1 / 2
  let startTop := s.y < bounds.2 / 2
  let endTop := en.y < bounds.2 / 2
  if startLeft ∧ ¬endLeft then
    let routeY := if startTop then safeZone + e.opts.routingSpacingTop
      else bounds.2 - safeZone - e.opts.routingSpacingTop
    [s, ⟨s.x, routeY⟩, ⟨en.x, routeY⟩, en]
  else if ¬startLeft ∧ endLeft then
    let routeY := if startTop then safeZone + e.opts.routingSpacingTop
      else bounds.2 - safeZone - e.opts.routingSpacingTop
    [s, ⟨s.x, routeY⟩, ⟨en.x, routeY⟩, en]
  else if startTop ∧ ¬endTop then
    let routeX := if startLeft then safeZone + e.opts.routingSpacingSide
      else bounds.1 - safeZone - e.opts.routingSpacingSide
    [s, ⟨routeX, s.y⟩, ⟨routeX, en.y⟩, en]
  else if ¬startTop ∧ endTop then
    let routeX := if startLeft then safeZone + e.opts.routingSpacingSide
      else bounds.1 - safeZone - e.opts.routingSpacingSide
    [s, ⟨routeX, s.y⟩, ⟨routeX, en.y⟩, en]
  else
    [s, ⟨s.x, safeZone + e.opts.routingSpacingTop⟩,
     ⟨en.x, safeZone + e.opts.routingSpacingTop⟩, en]

/-- Source `createSimpleRoute` (lines 613-631): try the two L-shaped routes,
return the first clear one, otherwise fall back to the margin route
(which is returned without any clearance check). -/
def createSimpleRoute (e : Env) (s en : Point) (fromT toT : Table) : List Point :=
  let route1 : List Point := [s, ⟨en.x, s.y⟩, en]
  let route2 : List Point := [s, ⟨s.x, en.y⟩, en]
  if isRouteClear e route1 fromT toT then route1
  else if isRouteClear e route2 fromT toT then route2
  else createMarginRoute e s en

/-- Source `createSafePerimeterPath` (lines 969-981): the static fallback that
hugs the top and right canvas edges.  It is dead code on the
`generateSmartPath` path but is the "perimeter fallback" the spec refers to. -/
def createSafePerimeterPath (e : Env) (s en : Point) : List Point :=
  let bounds := calculateCanvasBounds e
  let safeMargin : ℚ := 80
  [s, ⟨s.x, safeMargin + 80⟩, ⟨bounds.1 - safeMargin, safeMargin + 80⟩,
   ⟨bounds.1 - safeMargin, en.y⟩, en]

/-- Source `generateSmartPath` (lines 590-610): `null` when either endpoint
table has no rectangle; otherwise resolve the connection points and route with
`createSimpleRoute`. -/
def generateSmartPath (e : Env) (fromT toT : Table) (fromColumn toColumn : String) :
    Option (List Point) :=
  match getTableRect e fromT, getTableRect e toT with
  | some fr, some tr =>
    let cp := findBestConnectionPoints e fr tr fromColumn toColumn fromT toT
    some (createSimpleRoute e cp.start cp.endP fromT toT)
  | _, _ => none

/-! ## Path simplification (`simplifyPath`, lines 1268-1307) -/

/-- Whether the interior point `cur` is kept: the source keeps it when the dot
product of the normalized incoming/outgoing directions is `< 0.95` (a zero-length
direction normalizes to `(0,0)`, hence dot `0`, hence kept).  Equivalently,
`cur` is dropped iff both directions are nonzero, the dot product is
nonnegative and `400·dot² ≥ 361·|d1|²·|d2|²` (`0.95 = 19/20`); this squared
form is exact over `ℚ` (bridge lemma `shouldKeep_iff_real`). -/
def shouldKeep (prev cur next : Point) : Bool :=
  let d1x := cur.x - prev.x
  let d1y := cur.y - prev.y
  let d2x := next.x - cur.x
  let d2y := next.y - cur.y
  let dot := d1x * d2x + d1y * d2y
  let l1 := d1x ^ 2 + d1y ^ 2
  let l2 := d2x ^ 2 + d2y ^ 2
  !(decide (0 < l1) && decide (0 < l2) && decide (0 ≤ dot) &&
    decide (361 * (l1 * l2) ≤ 400 * dot ^ 2))

/-- The interior walk of `simplifyPath`: `prev` is always the point of the
ORIGINAL path preceding the current one (the source indexes `path[i-1]`, not
the last kept point); the final point is always kept. -/
def simplifyAux (prev : Point) : List Point → List Point
  | [] => []
  | [p] => [p]
  | p :: q :: rest =>
    if shouldKeep prev p q then p :: simplifyAux p (q :: rest)
    else simplifyAux p (q :: rest)

/-- Source `simplifyPath` (lines 1268-1307): paths of length ≤ 2 are returned
unchanged; otherwise the first point is kept, each interior point is kept
exactly when the direction changes significantly, and the last point is kept. -/
def simplifyPath : List Point → List Point
  | [] => []
  | [p] => [p]
  | [p, q] => [p, q]
  | p :: q :: r :: rest => p :: simplifyAux p (q :: r :: rest)

/-! ## Relationship drawing and diagram assembly (lines 143-207 and 450-579) -/

/-- The segment of a name after its last dot (the name itself when it has no
dot): the source's `tableName.split('.').pop()`, computed by a character fold. -/
def simpleNameAfterDot (s : String) : String :=
  (s.data.foldl (fun acc ch => if ch = '.' then [] else acc ++ [ch]) []).asString

/-- Resolution of a relationship endpoint name to a table, `findTable` inside
`drawRelationship` (lines 474-482): match `t.name` against the simple name
after the last dot, or `displayName`/`fullName` against the full name.
(The source's `includes('.')` test is redundant: splitting a dot-free name
yields the name itself.) -/
def findTable (e : Env) (tableName : String) : Option Table :=
  let simpleName := simpleNameAfterDot tableName
  e.tables.find? (fun t =>
    t.name == simpleName || t.displayName == some tableName || t.fullName == some tableName)

/-- The draw instruction produced for one relationship. -/
inductive RelDraw where
  /-- An annotated placeholder comment: endpoint table not found (line 488). -/
  | tableNotFound (fromName toName : String)
  /-- The empty string returned when a rect is missing (line 495). -/
  | missingRect
  /-- The placeholder comment when no path of length ≥ 2 exists (line 515). -/
  | noPath (fromName toName : String)
  /-- A rendered relationship: the complete path (edge point + routing path +
  edge point) and the label midpoint. -/
  | drawn (completePath : List Point) (mid : Point)
  deriving DecidableEq, Repr

/-- Source `drawRelationship` (lines 450-579), reduced to its geometric output. -/
def drawRelationship (e : Env) (rel : Relationship) : RelDraw :=
  match findTable e rel.fromTable, findTable e rel.toTable with
  | some fromT, some toT =>
    match getTableRect e fromT, getTableRect e toT with
    | some fr, some tr =>
      let cp := findBestConnectionPoints e fr tr rel.fromColumn rel.toColumn fromT toT
      match generateSmartPath e fromT toT rel.fromColumn rel.toColumn with
      | none => .noPath rel.fromTable rel.toTable
      | some routingPath =>
        if routingPath.length < 2 then .noPath rel.fromTable rel.toTable
        else
          .drawn (cp.tableStart :: routingPath ++ [cp.tableEnd])
            (routingPath.getD (routingPath.length / 2) default)
    | _, _ => .missingRect
  | _, _ => .tableNotFound rel.fromTable rel.toTable

/-- The output of one `generate()` call, reduced to its geometric content. -/
inductive DiagramOutput where
  /-- The fixed-size placeholder produced by `generateEmptyDiagram`
  (lines 183-207): a 600×400 canvas with an explanatory message. -/
  | empty (width height : ℚ) (message : String)
  /-- A full diagram: width map, position map, canvas bounds, and one draw
  instruction per relationship (in input order). -/
  | diagram (widths : List (String × ℚ)) (positions : List (String × Point))
      (bounds : ℚ × ℚ) (relDraws : List RelDraw)
  deriving Repr

/-- The generator state built by `generate()` for a non-empty table list:
widths from `calculateTableWidths`, positions from `calculatePositions`. -/
def envOf (tables : List Table) (o : Options) : Env :=
  let widths := calculateTableWidths tables o
  ⟨tables, widths, calculatePositions tables widths o, o⟩

/-- Source `generate` (lines 143-181): the empty-table branch returns the
placeholder immediately (no sizing, placement or routing); otherwise sizing,
placement, bounds and the per-relationship draws. -/
def generate (tables : List Table) (rels : List Relationship) (o : Options) :
    DiagramOutput :=
  if tables.isEmpty then
    .empty 600 400 "No tables found in database"
  else
    let e := envOf tables o
    .diagram e.widths e.positions (calculateCanvasBounds e)
      (rels.map (drawRelationship e))

/-- The position map of an output (empty for the placeholder). -/
def outPositions : DiagramOutput → List (String × Point)
  | .empty _ _ _ => []
  | .diagram _ positions _ _ => positions

/-- The canvas bounds of an output. -/
def outBounds : DiagramOutput → ℚ × ℚ
  | .empty w h _ => (w, h)
  | .diagram _ _ bounds _ => bounds

/-- The per-relationship draw instructions of an output. -/
def outRelDraws : DiagramOutput → List RelDraw
  | .empty _ _ _ => []
  | .diagram _ _ _ relDraws => relDraws

/-! ## Concrete instances used by witnesses and counterexamples -/

/-- A one-column table named `a`. -/
def tblA : Table := ⟨"a", none, none, [⟨"ca", "INT", false⟩], ["ca"], []⟩

/-- A one-column table named `b`. -/
def tblB : Table := ⟨"b", none, none, [⟨"cb", "INT", false⟩], ["cb"], []⟩

/-- A one-column table named `c`. -/
def tblC : Table := ⟨"c", none, none, [⟨"cc", "INT", false⟩], ["cc"], []⟩

/-- A vertically stacked state: `a` at (200,200), the obstacle `c` at (200,400)
and `b` at (200,800), all 200 wide (every table is 72 tall), with default
options.  `c` blocks both L-routes from `a` to `b`. -/
def envV : Env :=
  ⟨[tblA, tblC, tblB],
   [("a", 200), ("c", 200), ("b", 200)],
   [("a", ⟨200, 200⟩), ("c", ⟨200, 400⟩), ("b", ⟨200, 800⟩)],
   defaultOptions⟩

/-- A horizontally separated state: `a` at (200,200) and `b` at (800,200),
with default options; the right-to-left connection is uniquely optimal. -/
def envH : Env :=
  ⟨[tblA, tblB],
   [("a", 200), ("b", 200)],
   [("a", ⟨200, 200⟩), ("b", ⟨800, 200⟩)],
   defaultOptions⟩

/-! ## Spec-modelled tie-break order (for claim C3)

The spec asserts ties resolve to the iteration order "left/right/top/bottom on
each side"; the source's object literals iterate right/left/top/bottom.  The
following definitions are modelled from the spec's words, to be compared with
the source-derived `findBestConnectionPoints`. -/

/-- Modelled from the spec: the side iteration order the spec claims
("left/right/top/bottom"). -/
def claimSideOrder : List Side := [.left, .right, .top, .bottom]

/-- Modelled from the spec: the 16 candidates enumerated in the spec's order. -/
def claimCandList (m : ℚ) (fr tr : Rect) (fy ty : ℚ) : List Conn :=
  claimSideOrder.flatMap (fun fs => claimSideOrder.map (fun ts => mkCand m fr tr fy ty fs ts))

/-- Modelled from the spec: lowest score wins, ties to the first in the spec's
iteration order. -/
def claimOrderSelect (m : ℚ) (fr tr : Rect) (fy ty : ℚ) : Option Conn :=
  match claimCandList m fr tr fy ty with
  | [] => none
  | c :: rest => some (selectAux c rest)

/-! ## Helper lemmas: path simplification -/

theorem simplifyAux_sublist (prev : Point) (l : List Point) :
    (simplifyAux prev l).Sublist l := by
  induction l generalizing prev with
  | nil => simp [simplifyAux]
  | cons p rest ih =>
    cases rest with
    | nil => simp [simplifyAux]
    | cons q t =>
      rw [simplifyAux]
      split
      · exact (ih p).cons₂ p
      · exact (ih p).cons p

theorem simplifyAux_ne_nil (prev : Point) (l : List Point) (h : l ≠ []) :
    simplifyAux prev l ≠ [] := by
  induction l generalizing prev with
  | nil => exact absurd rfl h
  | cons p rest ih =>
    cases rest with
    | nil => simp [simplifyAux]
    | cons q t =>
      rw [simplifyAux]
      split
      · simp
      · exact ih p (by simp)

theorem simplifyAux_getLast? (prev : Point) (l : List Point) (h : l ≠ []) :
    (simplifyAux prev l).getLast? = l.getLast? := by
  induction l generalizing prev with
  | nil => exact absurd rfl h
  | cons p rest ih =>
    cases rest with
    | nil => simp [simplifyAux]
    | cons q t =>
      rw [simplifyAux]
      split
      · rw [List.getLast?_cons_cons]
        rw [show (p :: simplifyAux p (q :: t)).getLast? = (simplifyAux p (q :: t)).getLast? by
              cases hq : simplifyAux p (q :: t) with
              | nil => exact absurd hq (simplifyAux_ne_nil p (q :: t) (by simp))
              | cons a b => simp]
        exact ih p (by simp)
      · rw [List.getLast?_cons_cons]
        exact ih p (by simp)

theorem simplifyPath_sublist (p : List Point) : (simplifyPath p).Sublist p := by
  match p with
  | [] => simp [simplifyPath]
  | [a] => simp [simplifyPath]
  | [a, b] => simp [simplifyPath]
  | a :: b :: c :: rest =>
    rw [simplifyPath]
    exact (simplifyAux_sublist a (b :: c :: rest)).cons₂ a

theorem simplifyPath_head? (p : List Point) : (simplifyPath p).head? = p.head? := by
  match p with
  | [] => rfl
  | [a] => rfl
  | [a, b] => rfl
  | a :: b :: c :: rest => rw [simplifyPath]; rfl

theorem simplifyPath_getLast? (p : List Point) :
    (simplifyPath p).getLast? = p.getLast? := by
  match p with
  | [] => rfl
  | [a] => rfl
  | [a, b] => rfl
  | a :: b :: c :: rest =>
    rw [simplifyPath, List.getLast?_cons_cons]
    rw [show (a :: simplifyAux a (b :: c :: rest)).getLast? =
          (simplifyAux a (b :: c :: rest)).getLast? by
        cases hq : simplifyAux a (b :: c :: rest) with
        | nil => exact absurd hq (simplifyAux_ne_nil a (b :: c :: rest) (by simp))
        | cons x xs => simp]
    exact simplifyAux_getLast? a (b :: c :: rest) (by simp)

theorem simplifyPath_short (p : List Point) (h : p.length ≤ 2) : simplifyPath p = p := by
  match p with
  | [] => rfl
  | [a] => rfl
  | [a, b] => rfl
  | a :: b :: c :: rest => simp at h

theorem simplifyPath_three (a b c : Point) :
    simplifyPath (simplifyPath [a, b, c]) = simplifyPath [a, b, c] := by
  by_cases h : shouldKeep a b c <;> simp [simplifyPath, simplifyAux, h]

/-! ## Helper lemmas: the argmin selection loop -/

theorem selectAux_mem (b : Conn) (l : List Conn) : selectAux b l ∈ b :: l := by
  induction l generalizing b with
  | nil => simp [selectAux]
  | cons c rest ih =>
    rw [selectAux]
    split
    · exact List.mem_cons_of_mem b (ih c)
    · rcases List.mem_cons.mp (ih b) with h | h
      · simp [h]
      · exact List.mem_cons_of_mem b (List.mem_cons_of_mem c h)

theorem selectAux_min (b : Conn) (l : List Conn) :
    ∀ c ∈ b :: l, connScoreSq (selectAux b l) ≤ connScoreSq c := by
  induction l generalizing b with
  | nil =>
    intro c hc
    rcases List.mem_cons.mp hc with h | h
    · subst h; simp [selectAux]
    · simp at h
  | cons c rest ih =>
    rw [selectAux]
    split
    · rename_i hlt
      intro d hd
      rcases List.mem_cons.mp hd with h | h
      · subst h
        exact le_of_lt (lt_of_le_of_lt (ih c c (List.mem_cons_self c rest)) hlt)
      · exact ih c d h
    · rename_i hge
      intro d hd
      rcases List.mem_cons.mp hd with h | h
      · rw [h]; exact ih b b (List.mem_cons_self b rest)
      · rcases List.mem_cons.mp h with h2 | h2
        · rw [h2]
          exact le_trans (ih b b (List.mem_cons_self b rest)) (le_of_not_lt hge)
        · exact ih b d (List.mem_cons_of_mem b h2)

theorem selectAux_first (b : Conn) (l : List Conn) :
    ∃ pre post, b :: l = pre ++ selectAux b l :: post ∧
      ∀ c ∈ pre, connScoreSq (selectAux b l) < connScoreSq c := by
  induction l generalizing b with
  | nil => exact ⟨[], [], rfl, by simp⟩
  | cons c rest ih =>
    rw [selectAux]
    split
    · rename_i hlt
      obtain ⟨pre, post, heq, hpre⟩ := ih c
      refine ⟨b :: pre, post, by rw [List.cons_append, ← heq], ?_⟩
      intro d hd
      rcases List.mem_cons.mp hd with h | h
      · rw [h]
        exact lt_of_le_of_lt (selectAux_min c rest c (List.mem_cons_self c rest)) hlt
      · exact hpre d h
    · rename_i hge
      obtain ⟨pre, post, heq, hpre⟩ := ih b
      cases pre with
      | nil =>
        simp only [List.nil_append] at heq
        injection heq with h1 h2
        refine ⟨[], c :: rest, ?_, by simp⟩
        simp only [List.nil_append]
        rw [← h1]
      | cons x pre' =>
        simp only [List.cons_append, List.cons.injEq] at heq
        obtain ⟨hbx', hrest⟩ := heq
        have hbx : connScoreSq (selectAux b rest) < connScoreSq b := by
          have hx := hpre x (List.mem_cons_self x pre')
          rw [← hbx'] at hx
          exact hx
        refine ⟨b :: c :: pre', post, ?_, ?_⟩
        · simp only [List.cons_append]
          conv_lhs => rw [hrest]
        · intro d hd
          rcases List.mem_cons.mp hd with h | h
          · rw [h]; exact hbx
          · rcases List.mem_cons.mp h with h2 | h2
            · rw [h2]; exact lt_of_lt_of_le hbx (le_of_not_lt hge)
            · exact hpre d (List.mem_cons_of_mem x h2)

/-- A normalized dot product is at least 19/20 iff the dot product is
nonnegative and its square, scaled by 400, dominates 361 times the product of
the squared norms: the square-root-free form used by `shouldKeep`. -/
theorem normalized_dot_ge_iff (a l1 l2 : ℝ) (h1 : 0 < l1) (h2 : 0 < l2) :
    (19 / 20 : ℝ) ≤ a / (Real.sqrt l1 * Real.sqrt l2) ↔
      0 ≤ a ∧ 361 * (l1 * l2) ≤ 400 * a ^ 2 := by
  have hs1 := Real.sqrt_pos.mpr h1
  have hs2 := Real.sqrt_pos.mpr h2
  have hD : 0 < Real.sqrt l1 * Real.sqrt l2 := mul_pos hs1 hs2
  have hD2 : (Real.sqrt l1 * Real.sqrt l2) ^ 2 = l1 * l2 := by
    rw [mul_pow, Real.sq_sqrt h1.le, Real.sq_sqrt h2.le]
  rw [le_div_iff₀ hD]
  constructor
  · intro h
    have ha : 0 ≤ a := le_trans (by positivity) h
    refine ⟨ha, ?_⟩
    nlinarith [h, hD2, hD]
  · rintro ⟨ha, hsq⟩
    nlinarith [hD2, hD, ha, hsq, sq_nonneg (20 * a - 19 * (Real.sqrt l1 * Real.sqrt l2)),
      sq_nonneg (20 * a + 19 * (Real.sqrt l1 * Real.sqrt l2))]

/-- Fidelity of `shouldKeep`: an interior point is dropped (`shouldKeep = false`)
exactly when both direction vectors are nonzero and the real-valued dot product
of the NORMALIZED directions is at least 0.95, as the source computes it. -/
theorem shouldKeep_iff_real (prev cur next : Point) :
    shouldKeep prev cur next = false ↔
      (0 < (cur.x - prev.x) ^ 2 + (cur.y - prev.y) ^ 2 ∧
       0 < (next.x - cur.x) ^ 2 + (next.y - cur.y) ^ 2 ∧
       (19 / 20 : ℝ) ≤
         (((cur.x - prev.x) * (next.x - cur.x) +
             (cur.y - prev.y) * (next.y - cur.y) : ℚ) : ℝ) /
           (Real.sqrt (((cur.x - prev.x) ^ 2 + (cur.y - prev.y) ^ 2 : ℚ) : ℝ) *
            Real.sqrt (((next.x - cur.x) ^ 2 + (next.y - cur.y) ^ 2 : ℚ) : ℝ))) := by
  rw [shouldKeep]
  rw [Bool.not_eq_false']
  simp only [Bool.and_eq_true, decide_eq_true_eq]
  constructor
  · rintro ⟨⟨⟨h1, h2⟩, h3⟩, h4⟩
    refine ⟨h1, h2, ?_⟩
    rw [normalized_dot_ge_iff _ _ _ (by exact_mod_cast h1) (by exact_mod_cast h2)]
    refine ⟨by exact_mod_cast h3, ?_⟩
    exact_mod_cast h4
  · rintro ⟨h1, h2, h3⟩
    rw [normalized_dot_ge_iff _ _ _ (by exact_mod_cast h1) (by exact_mod_cast h2)] at h3
    obtain ⟨h3a, h3b⟩ := h3
    exact ⟨⟨⟨h1, h2⟩, by exact_mod_cast h3a⟩, by exact_mod_cast h3b⟩

/-! ## Helper lemmas: connection point resolution -/

theorem side_mem_sideOrder (s : Side) : s ∈ sideOrder := by
  cases s <;> simp [sideOrder]

theorem mem_candList (m : ℚ) (fr tr : Rect) (fy ty : ℚ) (x : Conn) :
    x ∈ candList m fr tr fy ty ↔ ∃ fs ts, x = mkCand m fr tr fy ty fs ts := by
  constructor
  · intro h
    rw [candList, List.mem_flatMap] at h
    obtain ⟨fs, _, h⟩ := h
    rw [List.mem_map] at h
    obtain ⟨ts, _, rfl⟩ := h
    exact ⟨fs, ts, rfl⟩
  · rintro ⟨fs, ts, rfl⟩
    rw [candList, List.mem_flatMap]
    exact ⟨fs, side_mem_sideOrder fs, List.mem_map.mpr ⟨ts, side_mem_sideOrder ts, rfl⟩⟩

theorem candList_length (m : ℚ) (fr tr : Rect) (fy ty : ℚ) :
    (candList m fr tr fy ty).length = 16 := rfl

/-- Specification of the selection loop: the returned connection is one of the
candidates, has the minimal (squared) weighted score, and is the first
candidate in iteration order achieving it. -/
theorem findBest_spec (e : Env) (fr tr : Rect) (fc tc : String) (ft tt : Table) :
    findBestConnectionPoints e fr tr fc tc ft tt ∈ connCands e fr tr fc tc ft tt ∧
    (∀ c ∈ connCands e fr tr fc tc ft tt,
      connScoreSq (findBestConnectionPoints e fr tr fc tc ft tt) ≤ connScoreSq c) ∧
    ∃ pre post, connCands e fr tr fc tc ft tt =
        pre ++ findBestConnectionPoints e fr tr fc tc ft tt :: post ∧
      ∀ c ∈ pre, connScoreSq (findBestConnectionPoints e fr tr fc tc ft tt) < connScoreSq c := by
  cases hcl : connCands e fr tr fc tc ft tt with
  | nil => exact absurd hcl (by simp [connCands, candList, sideOrder])
  | cons c rest =>
    have hfb : findBestConnectionPoints e fr tr fc tc ft tt = selectAux c rest := by
      rw [findBestConnectionPoints, hcl]
    rw [hfb]
    exact ⟨selectAux_mem c rest, selectAux_min c rest, selectAux_first c rest⟩

/-- If some candidate is a strict unique minimum, the loop returns it. -/
theorem findBest_unique (e : Env) (fr tr : Rect) (fc tc : String) (ft tt : Table)
    (x : Conn) (hx : x ∈ connCands e fr tr fc tc ft tt)
    (hu : ∀ c ∈ connCands e fr tr fc tc ft tt, connScoreSq c ≤ connScoreSq x → c = x) :
    findBestConnectionPoints e fr tr fc tc ft tt = x := by
  obtain ⟨hmem, hle, -⟩ := findBest_spec e fr tr fc tc ft tt
  exact hu _ hmem (hle x hx)

theorem distSq_symm (p q : Point) : distSq p q = distSq q p := by
  simp only [distSq]; ring

theorem distSq_nonneg (p q : Point) : 0 ≤ distSq p q := by
  simp only [distSq]; positivity

theorem sideWeight_symm (f t : Side) : sideWeight f t = sideWeight t f := by
  cases f <;> cases t <;> rfl

theorem sideWeight_pos (f t : Side) : 0 < sideWeight f t := by
  unfold sideWeight
  split_ifs <;> norm_num

theorem connScoreSq_mirror (c : Conn) : connScoreSq (mirrorConn c) = connScoreSq c := by
  simp only [connScoreSq, mirrorConn]
  rw [sideWeight_symm, distSq_symm]

theorem mkCand_swap (m : ℚ) (fr tr : Rect) (fy ty : ℚ) (fs ts : Side) :
    mkCand m tr fr ty fy fs ts = mirrorConn (mkCand m fr tr fy ty ts fs) := rfl

/-- The real-valued score the source compares (`weight * distance`) equals the
square root of the rational `connScoreSq`. -/
theorem connScoreSq_nonneg (c : Conn) : 0 ≤ connScoreSq c := by
  have h1 := sideWeight_pos c.fromSide c.toSide
  have h2 := distSq_nonneg c.start c.endP
  unfold connScoreSq
  positivity

theorem realScore_eq_sqrt (c : Conn) :
    (sideWeight c.fromSide c.toSide : ℝ) * Real.sqrt (distSq c.start c.endP) =
      Real.sqrt (connScoreSq c) := by
  rw [connScoreSq]
  push_cast
  rw [Real.sqrt_mul (by positivity), Real.sqrt_sq (by exact_mod_cast (sideWeight_pos _ _).le)]

/-- Comparing real scores is comparing the rational squared scores. -/
theorem realScore_le_iff (c d : Conn) :
    (sideWeight c.fromSide c.toSide : ℝ) * Real.sqrt (distSq c.start c.endP) ≤
      (sideWeight d.fromSide d.toSide : ℝ) * Real.sqrt (distSq d.start d.endP) ↔
    connScoreSq c ≤ connScoreSq d := by
  rw [realScore_eq_sqrt, realScore_eq_sqrt,
    Real.sqrt_le_sqrt_iff (by exact_mod_cast connScoreSq_nonneg _), Rat.cast_le]

/-- Strict version of `realScore_le_iff`. -/
theorem realScore_lt_iff (c d : Conn) :
    (sideWeight c.fromSide c.toSide : ℝ) * Real.sqrt (distSq c.start c.endP) <
      (sideWeight d.fromSide d.toSide : ℝ) * Real.sqrt (distSq d.start d.endP) ↔
    connScoreSq c < connScoreSq d := by
  rw [realScore_eq_sqrt, realScore_eq_sqrt,
    Real.sqrt_lt_sqrt_iff (by exact_mod_cast connScoreSq_nonneg _), Rat.cast_lt]

/-! ## Helper lemmas: grid layout -/

/-- Fold of `max` starting from 0 over the heights of the index interval
`[a, a + k)`: the value of `maxHeightInRow` after scanning those tables. -/
def interMax (h : ℕ → ℚ) (a : ℕ) : ℕ → ℚ
  | 0 => 0
  | k + 1 => max (interMax h a k) (h (a + k))

theorem colsCount_pos (n : ℕ) (hn : 1 ≤ n) : 0 < colsCount n := by
  rcases Nat.eq_zero_or_pos (colsCount n) with h | h
  · have := Nat.find_spec (colsCount_exists n)
    rw [colsCount] at h
    rw [h] at this
    omega
  · exact h

/-- The loop invariant of `calculatePositions`: before placing the `i`-th
table, the column counter is `i % c`, the row maximum is the max over the
current row's prefix, `x` is the row origin plus the widths (plus padding) of
the tables already placed in the current row, and `y` is the start y plus, for
every completed row, its height maximum plus padding. -/
theorem layout_inv (o : Options) (hs ws : ℕ → ℚ) (c : ℕ) (hc : 0 < c) (i : ℕ) :
    (layoutState o hs ws c i).col = i % c ∧
    (layoutState o hs ws c i).maxH = interMax hs (c * (i / c)) (i % c) ∧
    (layoutState o hs ws c i).x =
      startX o + ∑ j ∈ Finset.Ico (c * (i / c)) i, (ws j + o.tablePadding) ∧
    (layoutState o hs ws c i).y =
      startY o + ∑ r ∈ Finset.range (i / c), (interMax hs (c * r) c + o.tablePadding) := by
  induction i with
  | zero =>
    refine ⟨rfl, ?_, ?_, ?_⟩
    · simp [layoutState, interMax]
    · simp [layoutState]
    · simp [layoutState]
  | succ i ih =>
    obtain ⟨ihcol, ihmax, ihx, ihy⟩ := ih
    have hqr : c * (i / c) + i % c = i := Nat.div_add_mod i c
    have hrlt : i % c < c := Nat.mod_lt i hc
    rw [show layoutState o hs ws c (i + 1) =
        layoutStep o c (hs i) (ws i) (layoutState o hs ws c i) from rfl]
    rw [layoutStep]
    by_cases hw : c ≤ (layoutState o hs ws c i).col + 1
    · -- wrap to a new row
      rw [ihcol] at hw
      have hr : i % c = c - 1 := by omega
      have hi1 : i + 1 = c * (i / c + 1) := by
        rw [Nat.mul_add, Nat.mul_one]
        omega
      have hdiv : (i + 1) / c = i / c + 1 := by
        rw [hi1, Nat.mul_div_cancel_left _ hc]
      have hmod : (i + 1) % c = 0 := by
        rw [hi1, Nat.mul_mod_right]
      have hmax' : max (layoutState o hs ws c i).maxH (hs i) =
          interMax hs (c * (i / c)) c := by
        set A := c * (i / c) with hA
        obtain ⟨c', hc'⟩ : ∃ c', c = c' + 1 := ⟨c - 1, by omega⟩
        have hstep : interMax hs A c = max (interMax hs A c') (hs (A + c')) := by
          rw [hc']
          rfl
        rw [hstep, ihmax, hr]
        have h1 : c - 1 = c' := by omega
        have h2 : A + c' = i := by omega
        rw [h1, h2]
      simp only [if_pos (by rw [ihcol]; omega : c ≤ (layoutState o hs ws c i).col + 1)]
      refine ⟨by rw [hmod], ?_, ?_, ?_⟩
      · rw [hmod]; rfl
      · rw [hdiv, ← hi1]
        simp
      · rw [hdiv, Finset.sum_range_succ, ihy, hmax']
        ring
    · -- stay in the current row
      rw [ihcol] at hw
      have hr1 : i % c + 1 < c := by omega
      have hi1 : i + 1 = c * (i / c) + (i % c + 1) := by omega
      have hdiv : (i + 1) / c = i / c := by
        rw [hi1, Nat.mul_add_div hc, Nat.div_eq_of_lt hr1, Nat.add_zero]
      have hmod : (i + 1) % c = i % c + 1 := by
        rw [hi1, Nat.mul_add_mod, Nat.mod_eq_of_lt hr1]
      simp only [if_neg (by rw [ihcol]; omega : ¬ c ≤ (layoutState o hs ws c i).col + 1)]
      refine ⟨by rw [hmod, ihcol], ?_, ?_, ?_⟩
      · rw [hmod, hdiv]
        rw [show interMax hs (c * (i / c)) (i % c + 1) =
            max (interMax hs (c * (i / c)) (i % c)) (hs (c * (i / c) + i % c)) from rfl]
        rw [ihmax, hqr]
      · rw [hdiv, ihx]
        have hle : c * (i / c) ≤ i := by omega
        rw [Finset.sum_Ico_succ_top hle]
        ring
      · rw [hdiv, ihy]

/-- The grid column count is the least `k` with `5k² ≥ 6n`, which equals
`⌈√(1.2·n)⌉` over the reals. -/
theorem colsCount_eq_ceil_sqrt (n : ℕ) :
    colsCount n = ⌈Real.sqrt ((n : ℝ) * 1.2)⌉₊ := by
  have hx : (0 : ℝ) ≤ (n : ℝ) * 1.2 := by positivity
  apply le_antisymm
  · apply Nat.find_min'
    set k : ℕ := ⌈Real.sqrt ((n : ℝ) * 1.2)⌉₊ with hk
    have hle : Real.sqrt ((n : ℝ) * 1.2) ≤ (k : ℝ) := Nat.le_ceil _
    have hsq : (n : ℝ) * 1.2 ≤ (k : ℝ) ^ 2 := by
      calc (n : ℝ) * 1.2 = Real.sqrt ((n : ℝ) * 1.2) ^ 2 := (Real.sq_sqrt hx).symm
        _ ≤ (k : ℝ) ^ 2 := by
          apply pow_le_pow_left₀ (Real.sqrt_nonneg _) hle
    have : (6 * n : ℝ) ≤ 5 * (k * k : ℕ) := by push_cast; nlinarith
    exact_mod_cast this
  · rw [Nat.ceil_le]
    rw [Real.sqrt_le_iff]
    refine ⟨by positivity, ?_⟩
    have hf := Nat.find_spec (colsCount_exists n)
    rw [← colsCount] at hf
    have : (6 * n : ℝ) ≤ 5 * ((colsCount n : ℝ) * (colsCount n : ℝ)) := by
      exact_mod_cast hf
    nlinarith

/-! ## Claim theorems -/

/-- C10: for every input waypoint list, `simplifyPath` returns a subsequence of
its input (no point added, modified or reordered), the output's first and last
elements are the input's first and last elements, the output length never
exceeds the input length, and inputs of length at most 2 are returned
unchanged. -/
theorem c10_simplify_subsequence (p : List Point) :
    (simplifyPath p).Sublist p ∧
    (simplifyPath p).head? = p.head? ∧
    (simplifyPath p).getLast? = p.getLast? ∧
    (simplifyPath p).length ≤ p.length ∧
    (p.length ≤ 2 → simplifyPath p = p) :=
  ⟨simplifyPath_sublist p, simplifyPath_head? p, simplifyPath_getLast? p,
    (simplifyPath_sublist p).length_le, simplifyPath_short p⟩

/-- C2 (amended): re-simplification need not be the identity, but it always
returns a subsequence of the simplified path with the same first and last
points, and simplification IS idempotent on paths of at most 3 waypoints. -/
theorem c2_simplify_resimplify (p : List Point) :
    (simplifyPath (simplifyPath p)).Sublist (simplifyPath p) ∧
    (simplifyPath (simplifyPath p)).head? = (simplifyPath p).head? ∧
    (simplifyPath (simplifyPath p)).getLast? = (simplifyPath p).getLast? ∧
    (p.length ≤ 3 → simplifyPath (simplifyPath p) = simplifyPath p) := by
  refine ⟨simplifyPath_sublist _, simplifyPath_head? _, simplifyPath_getLast? _, ?_⟩
  intro hlen
  match p, hlen with
  | [], _ => rfl
  | [a], _ => rfl
  | [a, b], _ => rfl
  | [a, b, c], _ => exact simplifyPath_three a b c
  | a :: b :: c :: d :: t, h => simp at h

/-- C5: every width stored by `calculateTableWidths` lies in the closed
interval `[minTableWidth, maxTableWidth]`, provided the configured minimum does
not exceed the maximum and the maximum is an integer (as all recognized
configurations are); the pre-clamp width is the max of the minimum floor, the
title width, the visible column line widths, and the truncation line width, as
embodied by `preClampWidth`. -/
theorem c5_width_clamped (o : Options) (tables : List Table)
    (hminmax : o.minTableWidth ≤ o.maxTableWidth)
    (hint : ((⌈o.maxTableWidth⌉ : ℤ) : ℚ) = o.maxTableWidth) :
    ∀ entry ∈ calculateTableWidths tables o,
      o.minTableWidth ≤ entry.2 ∧ entry.2 ≤ o.maxTableWidth := by
  intro entry hentry
  obtain ⟨t, -, rfl⟩ := List.mem_map.mp hentry
  have hle : max (min (preClampWidth o t) o.maxTableWidth) o.minTableWidth ≤
      o.maxTableWidth := max_le (min_le_right _ _) hminmax
  have h1 : o.minTableWidth ≤
      ((⌈max (min (preClampWidth o t) o.maxTableWidth) o.minTableWidth⌉ : ℤ) : ℚ) :=
    le_trans (le_max_right _ _) (Int.le_ceil _)
  have h2 : ((⌈max (min (preClampWidth o t) o.maxTableWidth) o.minTableWidth⌉ : ℤ) : ℚ) ≤
      o.maxTableWidth := by
    calc ((⌈max (min (preClampWidth o t) o.maxTableWidth) o.minTableWidth⌉ : ℤ) : ℚ) ≤
        ((⌈o.maxTableWidth⌉ : ℤ) : ℚ) := by exact_mod_cast Int.ceil_mono hle
      _ = o.maxTableWidth := hint
  exact ⟨h1, h2⟩

/-- C6: the computed height equals `tableHeaderHeight` plus
`min(columnCount, maxColumns)` row heights, plus one extra row height exactly
when the table is truncated, plus the fixed footer pad 15; and the height is a
function of the column count and the options alone. -/
theorem c6_height_formula (o : Options) (t : Table) :
    getTableHeight o t =
      o.tableHeaderHeight + (min t.columns.length o.maxColumns : ℕ) * o.columnHeight +
        (if o.maxColumns < t.columns.length then o.columnHeight else 0) + 15 ∧
    ∀ t₂ : Table, t₂.columns.length = t.columns.length →
      getTableHeight o t₂ = getTableHeight o t := by
  refine ⟨rfl, ?_⟩
  intro t₂ hlen
  rw [getTableHeight, getTableHeight, hlen]

/-- C8: with an empty table list, `generate` returns the fixed 600×400
placeholder with its explanatory message, for every relationships list and
every configuration (in particular independent of the margins), and performs
no sizing/placement/routing (the diagram branch is never entered). -/
theorem c8_empty_diagram (rels : List Relationship) (o : Options) :
    generate [] rels o = DiagramOutput.empty 600 400 "No tables found in database" := rfl

/-- C9: a relationship whose endpoint name resolves to no table (by name,
simple name after the last dot, displayName or fullName) produces the annotated
"table not found" placeholder instead of a path and throws nothing; its
presence changes neither the table positions, nor the canvas bounds, nor any
other relationship's draw output. -/
theorem c9_unresolvable_endpoint (tables : List Table) (o : Options)
    (rel : Relationship) (rels₁ rels₂ : List Relationship) (hne : tables ≠ [])
    (hmiss : findTable (envOf tables o) rel.fromTable = none ∨
             findTable (envOf tables o) rel.toTable = none) :
    drawRelationship (envOf tables o) rel =
      RelDraw.tableNotFound rel.fromTable rel.toTable ∧
    outPositions (generate tables (rels₁ ++ rel :: rels₂) o) =
      outPositions (generate tables (rels₁ ++ rels₂) o) ∧
    outBounds (generate tables (rels₁ ++ rel :: rels₂) o) =
      outBounds (generate tables (rels₁ ++ rels₂) o) ∧
    outRelDraws (generate tables (rels₁ ++ rel :: rels₂) o) =
      rels₁.map (drawRelationship (envOf tables o)) ++
        RelDraw.tableNotFound rel.fromTable rel.toTable ::
          rels₂.map (drawRelationship (envOf tables o)) ∧
    outRelDraws (generate tables (rels₁ ++ rels₂) o) =
      rels₁.map (drawRelationship (envOf tables o)) ++
        rels₂.map (drawRelationship (envOf tables o)) := by
  have hdraw : drawRelationship (envOf tables o) rel =
      RelDraw.tableNotFound rel.fromTable rel.toTable := by
    rcases hf : findTable (envOf tables o) rel.fromTable with _ | ft
    · simp only [drawRelationship, hf]
    · rcases ht : findTable (envOf tables o) rel.toTable with _ | tt
      · simp only [drawRelationship, hf, ht]
      · rcases hmiss with h | h
        · rw [hf] at h; exact absurd h (by simp)
        · rw [ht] at h; exact absurd h (by simp)
  have hgen : ∀ rels, generate tables rels o =
      DiagramOutput.diagram (envOf tables o).widths (envOf tables o).positions
        (calculateCanvasBounds (envOf tables o))
        (rels.map (drawRelationship (envOf tables o))) := by
    intro rels
    rw [generate, if_neg (by simpa using hne)]
  refine ⟨hdraw, ?_, ?_, ?_, ?_⟩ <;>
    simp [hgen, hdraw, outPositions, outBounds, outRelDraws]

/-- C3 (amended): `findBestConnectionPoints` evaluates all 16 side
combinations, scores each as the Euclidean distance between the two
margin-offset anchors times 0.6 for an opposing left/right pair, 0.8 when some
side is left or right, and 1.0 otherwise, and returns the lowest-scoring
combination; ties resolve to the first candidate in the source's iteration
order, which is right/left/top/bottom on each side (NOT left/right/top/bottom
as the claim states — see the counterexample). -/
theorem c3_connection_scoring (e : Env) (fr tr : Rect) (fc tc : String) (ft tt : Table) :
    (connCands e fr tr fc tc ft tt).length = 16 ∧
    (∀ fs ts, mkCand e.opts.connectionMargin fr tr (getColumnYPosition e ft fc)
        (getColumnYPosition e tt tc) fs ts ∈ connCands e fr tr fc tc ft tt) ∧
    (∀ c ∈ connCands e fr tr fc tc ft tt,
      (sideWeight (findBestConnectionPoints e fr tr fc tc ft tt).fromSide
            (findBestConnectionPoints e fr tr fc tc ft tt).toSide : ℝ) *
          Real.sqrt (distSq (findBestConnectionPoints e fr tr fc tc ft tt).start
            (findBestConnectionPoints e fr tr fc tc ft tt).endP) ≤
        (sideWeight c.fromSide c.toSide : ℝ) * Real.sqrt (distSq c.start c.endP)) ∧
    ∃ pre post, connCands e fr tr fc tc ft tt =
        pre ++ findBestConnectionPoints e fr tr fc tc ft tt :: post ∧
      ∀ c ∈ pre,
        (sideWeight (findBestConnectionPoints e fr tr fc tc ft tt).fromSide
              (findBestConnectionPoints e fr tr fc tc ft tt).toSide : ℝ) *
            Real.sqrt (distSq (findBestConnectionPoints e fr tr fc tc ft tt).start
              (findBestConnectionPoints e fr tr fc tc ft tt).endP) <
          (sideWeight c.fromSide c.toSide : ℝ) * Real.sqrt (distSq c.start c.endP) := by
  obtain ⟨hmem, hle, pre, post, heq, hpre⟩ := findBest_spec e fr tr fc tc ft tt
  refine ⟨rfl, ?_, ?_, pre, post, heq, ?_⟩
  · intro fs ts
    unfold connCands
    exact (mem_candList _ _ _ _ _ _).mpr ⟨fs, ts, rfl⟩
  · intro c hc
    rw [realScore_le_iff]
    exact hle c hc
  · intro c hc
    rw [realScore_lt_iff]
    exact hpre c hc

/-- C4 (amended): when the minimum weighted score is uniquely attained,
swapping fromRect/toRect, fromColumn/toColumn and the two tables yields exactly
the mirrored assignment: sides exchanged, start and end anchors exchanged,
edge markers exchanged, at the same Euclidean anchor distance.  (On an exact
tie the mirrored result is NOT guaranteed — see the counterexample.) -/
theorem c4_swap_mirrored (e : Env) (fr tr : Rect) (fc tc : String) (ft tt : Table)
    (hu : ∀ c ∈ connCands e fr tr fc tc ft tt,
      connScoreSq c ≤ connScoreSq (findBestConnectionPoints e fr tr fc tc ft tt) →
      c = findBestConnectionPoints e fr tr fc tc ft tt) :
    findBestConnectionPoints e tr fr tc fc tt ft =
      mirrorConn (findBestConnectionPoints e fr tr fc tc ft tt) ∧
    distSq (findBestConnectionPoints e tr fr tc fc tt ft).start
        (findBestConnectionPoints e tr fr tc fc tt ft).endP =
      distSq (findBestConnectionPoints e fr tr fc tc ft tt).start
        (findBestConnectionPoints e fr tr fc tc ft tt).endP := by
  obtain ⟨hmem, hle, -⟩ := findBest_spec e fr tr fc tc ft tt
  obtain ⟨s, t, hst⟩ := (mem_candList _ _ _ _ _ _).mp (by
    unfold connCands at hmem; exact hmem)
  have hmirror_mem : mirrorConn (findBestConnectionPoints e fr tr fc tc ft tt) ∈
      connCands e tr fr tc fc tt ft := by
    unfold connCands
    refine (mem_candList _ _ _ _ _ _).mpr ⟨t, s, ?_⟩
    rw [hst]
    exact (mkCand_swap _ _ _ _ _ _ _).symm
  have hmain : findBestConnectionPoints e tr fr tc fc tt ft =
      mirrorConn (findBestConnectionPoints e fr tr fc tc ft tt) := by
    apply findBest_unique e tr fr tc fc tt ft _ hmirror_mem
    intro c hc hcle
    obtain ⟨s2, t2, rfl⟩ := (mem_candList _ _ _ _ _ _).mp (by
      unfold connCands at hc; exact hc)
    rw [mkCand_swap] at hcle ⊢
    rw [connScoreSq_mirror, connScoreSq_mirror] at hcle
    have hd : mkCand e.opts.connectionMargin fr tr (getColumnYPosition e ft fc)
        (getColumnYPosition e tt tc) t2 s2 ∈ connCands e fr tr fc tc ft tt := by
      unfold connCands
      exact (mem_candList _ _ _ _ _ _).mpr ⟨t2, s2, rfl⟩
    rw [hu _ hd hcle]
  refine ⟨hmain, ?_⟩
  rw [hmain]
  exact distSq_symm _ _

/-- The margin route always has exactly 4 waypoints. -/
theorem createMarginRoute_length (e : Env) (s en : Point) :
    (createMarginRoute e s en).length = 4 := by
  rw [createMarginRoute]
  split_ifs <;> rfl

/-- Case analysis of `createSimpleRoute`: the returned route has at least two
waypoints, and it either passed `isRouteClear` (one of the two L-routes) or is
the margin route, returned without any clearance check. -/
theorem createSimpleRoute_spec (e : Env) (s en : Point) (ft tt : Table) :
    2 ≤ (createSimpleRoute e s en ft tt).length ∧
    (isRouteClear e (createSimpleRoute e s en ft tt) ft tt = true ∨
      createSimpleRoute e s en ft tt = createMarginRoute e s en) := by
  rw [createSimpleRoute]
  split
  · rename_i h
    exact ⟨by simp, Or.inl h⟩
  · split
    · rename_i h
      exact ⟨by simp, Or.inl h⟩
    · refine ⟨?_, Or.inr rfl⟩
      rw [createMarginRoute_length]
      omega

/-- C1 (amended): for every relationship whose two endpoint tables resolve to
placed rectangles, the router returns a waypoint list of length ≥ 2, and either
every segment of it clears every other table's buffered rectangle
(`isRouteClear`), or the route is the canvas-margin detour route
(`createMarginRoute`), which the source returns WITHOUT a clearance check.
The perimeter fallback (`createSafePerimeterPath`) is dead code on this path,
and the margin route can intersect buffered rectangles — see the
counterexample. -/
theorem c1_router_clearance (e : Env) (ft tt : Table) (fc tc : String) (fr tr : Rect)
    (hf : getTableRect e ft = some fr) (ht : getTableRect e tt = some tr) :
    ∃ route, generateSmartPath e ft tt fc tc = some route ∧ 2 ≤ route.length ∧
      (isRouteClear e route ft tt = true ∨
        route = createMarginRoute e
          (findBestConnectionPoints e fr tr fc tc ft tt).start
          (findBestConnectionPoints e fr tr fc tc ft tt).endP) := by
  rw [generateSmartPath, hf, ht]
  exact ⟨_, rfl, (createSimpleRoute_spec e _ _ ft tt).1, (createSimpleRoute_spec e _ _ ft tt).2⟩

/-- C7: the grid placer uses `ceil(sqrt(1.2 × tableCount))` columns, assigns
positions in input order, and each position has the closed form implied by the
claim: the x coordinate is the row origin plus, for every earlier table of the
same row, its own computed width plus `tablePadding`; the y coordinate is the
first-row origin plus, for every completed row, that row's maximum table
height plus `tablePadding` (rows wrap after exactly the column count). -/
theorem c7_grid_layout (o : Options) (tables : List Table) (widths : List (String × ℚ))
    (hn : 1 ≤ tables.length) (i : ℕ) (_hi : i < tables.length) :
    colsCount tables.length = ⌈Real.sqrt ((tables.length : ℝ) * 1.2)⌉₊ ∧
    (calculatePositions tables widths o).map Prod.fst = tables.map Table.name ∧
    posOfIndex o tables widths i =
      ⟨startX o + ∑ j ∈ Finset.Ico
          (colsCount tables.length * (i / colsCount tables.length)) i,
          (lookupWidth widths o (tables.getD j default) + o.tablePadding),
       startY o + ∑ r ∈ Finset.range (i / colsCount tables.length),
          (interMax (fun j => getTableHeight o (tables.getD j default))
            (colsCount tables.length * r) (colsCount tables.length) + o.tablePadding)⟩ := by
  refine ⟨colsCount_eq_ceil_sqrt _, ?_, ?_⟩
  · apply List.ext_getElem
    · simp [calculatePositions]
    · intro n h1 h2
      have hlt : n < tables.length := by simpa using h2
      simp only [calculatePositions, List.getElem_map, List.getElem_range]
      rw [List.getD_eq_getElem?_getD, List.getElem?_eq_getElem hlt, Option.getD_some]
  · obtain ⟨-, -, hx, hy⟩ := layout_inv o
      (fun j => getTableHeight o (tables.getD j default))
      (fun j => lookupWidth widths o (tables.getD j default))
      (colsCount tables.length) (colsCount_pos _ hn) i
    unfold posOfIndex
    simp only [Point.mk.injEq]
    exact ⟨hx, hy⟩

/-! ## Witnesses and counterexamples (concrete evaluation)

Batteries marks the `Rat` arithmetic operations `@[irreducible]`, which blocks
evaluation of concrete rational arithmetic in `decide`.  The theorems below
evaluate the embedded program on concrete inputs, so inside this section the
default reducibility of those operations is restored; this only changes
elaboration-time unfolding hints, not the kernel's judgments. -/

section ConcreteEvaluation

set_option allowUnsafeReducibility true
attribute [local semireducible] Rat.mul Rat.add Rat.sub Rat.inv

/-- C10 witness: the conditional clause evaluated at a concrete two-point path. -/
theorem c10_simplify_subsequence_witness :
    ([⟨0, 0⟩, ⟨1, 1⟩] : List Point).length ≤ 2 ∧
      simplifyPath [⟨0, 0⟩, ⟨1, 1⟩] = ([⟨0, 0⟩, ⟨1, 1⟩] : List Point) :=
  ⟨by decide, (c10_simplify_subsequence [⟨0, 0⟩, ⟨1, 1⟩]).2.2.2.2 (by decide)⟩

/-- C2 counterexample: `simplifyPath` is NOT idempotent.  On the path
`[(0,0), (10,3), (110,33), (120,43), (220,96)]` the first pass drops the
nearly-collinear points `(10,3)` and `(120,43)` (normalized direction dot
products 1 and ≈0.9559, both ≥ 0.95) but keeps `(110,33)` (dot ≈0.8807);
in the simplified path the bend at `(110,33)` has dot ≈0.9745 ≥ 0.95, so a
second pass drops it as well. -/
theorem c2_simplify_not_idempotent :
    simplifyPath ([⟨0, 0⟩, ⟨10, 3⟩, ⟨110, 33⟩, ⟨120, 43⟩, ⟨220, 96⟩] : List Point) =
      ([⟨0, 0⟩, ⟨110, 33⟩, ⟨220, 96⟩] : List Point) ∧
    simplifyPath ([⟨0, 0⟩, ⟨110, 33⟩, ⟨220, 96⟩] : List Point) =
      ([⟨0, 0⟩, ⟨220, 96⟩] : List Point) ∧
    simplifyPath (simplifyPath
        ([⟨0, 0⟩, ⟨10, 3⟩, ⟨110, 33⟩, ⟨120, 43⟩, ⟨220, 96⟩] : List Point)) ≠
      simplifyPath ([⟨0, 0⟩, ⟨10, 3⟩, ⟨110, 33⟩, ⟨120, 43⟩, ⟨220, 96⟩] : List Point) := by
  refine ⟨by decide, by decide, by decide⟩

/-- C2 witness: the length-3 idempotence clause at a concrete bent path. -/
theorem c2_simplify_resimplify_witness :
    ([⟨0, 0⟩, ⟨1, 0⟩, ⟨2, 1⟩] : List Point).length ≤ 3 ∧
      simplifyPath (simplifyPath ([⟨0, 0⟩, ⟨1, 0⟩, ⟨2, 1⟩] : List Point)) =
        simplifyPath ([⟨0, 0⟩, ⟨1, 0⟩, ⟨2, 1⟩] : List Point) :=
  ⟨by decide, (c2_simplify_resimplify [⟨0, 0⟩, ⟨1, 0⟩, ⟨2, 1⟩]).2.2.2 (by decide)⟩

/-- C5 witness: the hypotheses and conclusion at the default options and a
concrete table. -/
theorem c5_width_clamped_witness :
    defaultOptions.minTableWidth ≤ defaultOptions.maxTableWidth ∧
    ((⌈defaultOptions.maxTableWidth⌉ : ℤ) : ℚ) = defaultOptions.maxTableWidth ∧
    ∀ entry ∈ calculateTableWidths [tblA] defaultOptions,
      defaultOptions.minTableWidth ≤ entry.2 ∧ entry.2 ≤ defaultOptions.maxTableWidth :=
  ⟨by norm_num [defaultOptions], by norm_num [defaultOptions],
    c5_width_clamped defaultOptions [tblA] (by norm_num [defaultOptions])
      (by norm_num [defaultOptions])⟩

/-- C6 witness: determinism at two concrete one-column tables. -/
theorem c6_height_formula_witness :
    tblB.columns.length = tblA.columns.length ∧
      getTableHeight defaultOptions tblB = getTableHeight defaultOptions tblA :=
  ⟨by decide, (c6_height_formula defaultOptions tblA).2 tblB (by decide)⟩

/-- C9 witness: a concrete relationship naming a nonexistent table. -/
theorem c9_unresolvable_endpoint_witness :
    ([tblA] : List Table) ≠ [] ∧
    findTable (envOf [tblA] defaultOptions) "zzz" = none ∧
    drawRelationship (envOf [tblA] defaultOptions) ⟨"zzz", "x", "a", "ca", "k"⟩ =
      RelDraw.tableNotFound "zzz" "a" := by
  refine ⟨by simp, by decide, ?_⟩
  exact (c9_unresolvable_endpoint [tblA] defaultOptions ⟨"zzz", "x", "a", "ca", "k"⟩
    [] [] (by simp) (Or.inl (by decide))).1

/-- C3 counterexample: the tie-break order.  With `a` at (200,200) and `b` at
(200,800) (both 200×72, default options), the combinations (right,left) and
(left,right) tie exactly (squared weighted score 152100); the source's
right-first iteration returns fromSide = right, while selecting in the spec's
left/right/top/bottom order returns fromSide = left. -/
theorem c3_tie_order_counterexample :
    getColumnYPosition envV tblA "ca" = 255 ∧
    getColumnYPosition envV tblB "cb" = 855 ∧
    (findBestConnectionPoints envV (mkRect 200 200 200 72) (mkRect 200 800 200 72)
        "ca" "cb" tblA tblB).fromSide = Side.right ∧
    (findBestConnectionPoints envV (mkRect 200 200 200 72) (mkRect 200 800 200 72)
        "ca" "cb" tblA tblB).toSide = Side.left ∧
    connScoreSq (mkCand 25 (mkRect 200 200 200 72) (mkRect 200 800 200 72) 255 855
        Side.left Side.right) =
      connScoreSq (findBestConnectionPoints envV (mkRect 200 200 200 72)
        (mkRect 200 800 200 72) "ca" "cb" tblA tblB) ∧
    (claimOrderSelect 25 (mkRect 200 200 200 72) (mkRect 200 800 200 72) 255 855).map
        Conn.fromSide = some Side.left := by
  refine ⟨by decide, by decide, by decide, by decide, by decide, by decide⟩

/-- C4 counterexample: with `a` at (200,200) and `b` at (200,800) the
minimum is attained by the exact tie (right,left)/(left,right); both the
original and the swapped call return (right,left), so the swapped result is
not the mirror of the original: its start/end anchors differ from the
original's end/start. -/
theorem c4_swap_not_mirrored_counterexample :
    (findBestConnectionPoints envV (mkRect 200 200 200 72) (mkRect 200 800 200 72)
        "ca" "cb" tblA tblB).fromSide = Side.right ∧
    (findBestConnectionPoints envV (mkRect 200 200 200 72) (mkRect 200 800 200 72)
        "ca" "cb" tblA tblB).toSide = Side.left ∧
    (findBestConnectionPoints envV (mkRect 200 800 200 72) (mkRect 200 200 200 72)
        "cb" "ca" tblB tblA).fromSide = Side.right ∧
    (findBestConnectionPoints envV (mkRect 200 800 200 72) (mkRect 200 200 200 72)
        "cb" "ca" tblB tblA).toSide = Side.left ∧
    (findBestConnectionPoints envV (mkRect 200 800 200 72) (mkRect 200 200 200 72)
        "cb" "ca" tblB tblA).start ≠
      (findBestConnectionPoints envV (mkRect 200 200 200 72) (mkRect 200 800 200 72)
        "ca" "cb" tblA tblB).endP ∧
    (findBestConnectionPoints envV (mkRect 200 800 200 72) (mkRect 200 200 200 72)
        "cb" "ca" tblB tblA).endP ≠
      (findBestConnectionPoints envV (mkRect 200 200 200 72) (mkRect 200 800 200 72)
        "ca" "cb" tblA tblB).start ∧
    findBestConnectionPoints envV (mkRect 200 800 200 72) (mkRect 200 200 200 72)
        "cb" "ca" tblB tblA ≠
      mirrorConn (findBestConnectionPoints envV (mkRect 200 200 200 72)
        (mkRect 200 800 200 72) "ca" "cb" tblA tblB) := by
  refine ⟨by decide, by decide, by decide, by decide, by decide, by decide, by decide⟩

/-- C4 witness: with `a` at (200,200) and `b` at (800,200) the (right,left)
combination is the unique minimum, and the swapped call returns exactly the
mirrored connection. -/
theorem c4_swap_mirrored_witness :
    (∀ c ∈ connCands envH (mkRect 200 200 200 72) (mkRect 800 200 200 72)
        "ca" "cb" tblA tblB,
      connScoreSq c ≤ connScoreSq (findBestConnectionPoints envH
        (mkRect 200 200 200 72) (mkRect 800 200 200 72) "ca" "cb" tblA tblB) →
      c = findBestConnectionPoints envH (mkRect 200 200 200 72)
        (mkRect 800 200 200 72) "ca" "cb" tblA tblB) ∧
    findBestConnectionPoints envH (mkRect 800 200 200 72) (mkRect 200 200 200 72)
        "cb" "ca" tblB tblA =
      mirrorConn (findBestConnectionPoints envH (mkRect 200 200 200 72)
        (mkRect 800 200 200 72) "ca" "cb" tblA tblB) :=
  ⟨by decide,
    (c4_swap_mirrored envH (mkRect 200 200 200 72) (mkRect 800 200 200 72)
      "ca" "cb" tblA tblB (by decide)).1⟩

/-- C1 witness: both endpoints of the `a`→`b` relationship resolve in the
stacked state, and the router conclusion holds there. -/
theorem c1_router_clearance_witness :
    getTableRect envV tblA = some (mkRect 200 200 200 72) ∧
    getTableRect envV tblB = some (mkRect 200 800 200 72) ∧
    (∃ route, generateSmartPath envV tblA tblB "ca" "cb" = some route ∧
      2 ≤ route.length ∧
      (isRouteClear envV route tblA tblB = true ∨
        route = createMarginRoute envV
          (findBestConnectionPoints envV (mkRect 200 200 200 72)
            (mkRect 200 800 200 72) "ca" "cb" tblA tblB).start
          (findBestConnectionPoints envV (mkRect 200 200 200 72)
            (mkRect 200 800 200 72) "ca" "cb" tblA tblB).endP)) :=
  ⟨by decide, by decide,
    c1_router_clearance envV tblA tblB "ca" "cb" (mkRect 200 200 200 72)
      (mkRect 200 800 200 72) (by decide) (by decide)⟩

/-- C1 counterexample: in the stacked state (obstacle `c` between `a` and `b`)
both L-routes are blocked, so the router returns the margin route
[(425,255),(425,120),(175,120),(175,855)]; its final vertical segment crosses
`c`'s rectangle expanded by collisionBuffer+visualBuffer, so the route is NOT
clear, and it is not the perimeter fallback either — refuting the claim that
every non-perimeter-fallback result has zero intersections. -/
theorem c1_margin_route_counterexample :
    generateSmartPath envV tblA tblB "ca" "cb" =
      some [⟨425, 255⟩, ⟨425, 120⟩, ⟨175, 120⟩, ⟨175, 855⟩] ∧
    isRouteClear envV [⟨425, 255⟩, ⟨425, 120⟩, ⟨175, 120⟩, ⟨175, 855⟩] tblA tblB
      = false ∧
    getTableRect envV tblC = some (mkRect 200 400 200 72) ∧
    lineIntersectsRectSimple defaultOptions ⟨175, 120⟩ ⟨175, 855⟩
      (mkRect 200 400 200 72) = true ∧
    ([⟨425, 255⟩, ⟨425, 120⟩, ⟨175, 120⟩, ⟨175, 855⟩] : List Point) ≠
      createSafePerimeterPath envV ⟨425, 255⟩ ⟨175, 855⟩ := by
  refine ⟨by decide, by decide, by decide, by decide, by decide⟩

/-- C7 witness: three one-column tables at default options place in a 2-column
grid; the third table starts the second row at (160, 372). -/
theorem c7_grid_layout_witness :
    1 ≤ ([tblA, tblB, tblC] : List Table).length ∧
    2 < ([tblA, tblB, tblC] : List Table).length ∧
    posOfIndex defaultOptions [tblA, tblB, tblC]
      [("a", 200), ("b", 300), ("c", 250)] 2 = ⟨160, 372⟩ ∧
    (calculatePositions [tblA, tblB, tblC] [("a", 200), ("b", 300), ("c", 250)]
        defaultOptions).map Prod.fst =
      ([tblA, tblB, tblC] : List Table).map Table.name :=
  ⟨by decide, by decide, by decide,
    (c7_grid_layout defaultOptions [tblA, tblB, tblC]
      [("a", 200), ("b", 300), ("c", 250)] (by decide) 2 (by decide)).2.1⟩

end ConcreteEvaluation

end DiagramGen
